import Mathlib

/-!
# Verification of the beads-blueprint release toolkit

Shallow embedding of the core of the repository:

* `regenerate_changelog.py` — commit classification (`categorize_commit`),
  tracker-reference extraction (`extract_beads_issue`), grouping
  (`group_commits`), changelog-section scaffolding
  (`build_section`, `ensure_version_section`);
* `scripts/plan_to_beads.py` — plan parsing (`parse_priority`, `parse_plan`),
  identity resolution (`get_git_user`) and issue-record building
  (`build_issue_json`);
* `release.py` — version reading/bumping/writing
  (`read_version`, `bump_version`, `write_version`).

Text is modelled as `List Char` (commit subjects delivered by
`git log --pretty=format:%s` are single lines, so the embedding of the
regular expressions treats subjects as newline-free; theorems that depend on
this carry an explicit no-newline hypothesis).  Python regular-expression
matching is compiled by hand into deterministic scanners: each pattern used by
the code admits no non-trivial backtracking (every greedy piece is followed by
a literal that cannot occur inside the piece), which makes the maximal-munch
scanners below extensionally equal to `re.search`/`re.match`.
-/

namespace Beads

/-- Text, modelled as a list of characters. -/
abbrev Str := List Char

/-- Coerce a Lean string literal into the `List Char` model. -/
def str (s : String) : Str := s.data

/-- ASCII whitespace, as recognized by Python's `str.strip` / `\s`
(space, tab, newline, carriage return, vertical tab, form feed). -/
def isSpace (c : Char) : Bool :=
  c == ' ' || c == '\t' || c == '\n' || c == '\r' || c == '\x0b' || c == '\x0c'

/-- ASCII decimal digit. -/
def isDigit (c : Char) : Bool := 48 ≤ c.toNat && c.toNat ≤ 57

/-- The character class `[a-z0-9]` under `re.IGNORECASE`, i.e. ASCII
letters and digits. -/
def isAlnumA (c : Char) : Bool :=
  isDigit c || (65 ≤ c.toNat && c.toNat ≤ 90) || (97 ≤ c.toNat && c.toNat ≤ 122)

/-- Regex word character (for `\b`): letters, digits, underscore. -/
def isWordChar (c : Char) : Bool := isAlnumA c || c == '_'

/-- ASCII lower-casing, the behaviour of Python's `str.lower` on the ASCII
subjects this program manipulates. -/
def lowerChar (c : Char) : Char :=
  if 65 ≤ c.toNat ∧ c.toNat ≤ 90 then Char.ofNat (c.toNat + 32) else c

/-- Python `str.lstrip()`. -/
def pyLStrip (l : Str) : Str := l.dropWhile isSpace

/-- Python `str.rstrip()`. -/
def pyRStrip (l : Str) : Str := (l.reverse.dropWhile isSpace).reverse

/-- Python `str.strip()`. -/
def pyStrip (l : Str) : Str := pyRStrip (pyLStrip l)

/-- Does `s` start with character `c`? -/
def headIs (c : Char) (s : Str) : Bool :=
  match s with
  | x :: _ => x == c
  | [] => false

/-- Case-insensitive prefix test; the pattern `p` is given pre-lowercased. -/
def ciPre : Str → Str → Bool
  | [], _ => true
  | _ :: _, [] => false
  | p :: ps, c :: cs => (lowerChar c == p) && ciPre ps cs

/-- Containment test `pat in s` (Python substring containment). -/
def containsSub (pat : Str) : Str → Bool
  | [] => pat.isEmpty
  | s@(_ :: t) => pat.isPrefixOf s || containsSub pat t

/-- Python `s.endswith(c)` for a single-character suffix. -/
def endsWith (c : Char) (l : Str) : Bool :=
  match l.reverse with
  | x :: _ => x == c
  | [] => false

/-- The part of `s` after the first occurrence of `pat`
(`s.split(pat, 1)[1]`); `none` when `pat` does not occur. -/
def splitFirst (pat : Str) : Str → Option Str
  | [] => if pat.isEmpty then some [] else none
  | s@(_ :: t) =>
    if pat.isPrefixOf s then some (s.drop pat.length) else splitFirst pat t

/-- Split at the last occurrence of `"[P"`, returning (head, tail) as in
Python's `text.rpartition("[P")`; `none` when absent. -/
def rpartP : Str → Option (Str × Str)
  | [] => none
  | c :: t =>
    match rpartP t with
    | some (h, tl) => some (c :: h, tl)
    | none =>
      if (str "[P").isPrefixOf (c :: t) then some ([], t.drop 1) else none

/-- Numeric value of a digit character. -/
def charVal (c : Char) : Nat := c.toNat - 48

/-- Python `int(...)` on a string of decimal digits. -/
def digitsToNat (l : Str) : Nat := l.foldl (fun acc c => acc * 10 + charVal c) 0

/-- Python `str.isdigit()` on ASCII: non-empty and all digits. -/
def isDigits (l : Str) : Bool := !l.isEmpty && l.all isDigit

/-!
## `scripts/plan_to_beads.py` — `parse_priority`

```python
def parse_priority(text: str) -> tuple[str, int]:
    priority = 2
    title = text
    if "[P" in text and text.endswith("]"):
        head, _, tail = text.rpartition("[P")
        if tail.endswith("]"):
            value = tail.rstrip("]")
            if value.isdigit():
                priority = int(value)
                title = head.strip()
    return title.strip(), priority
```
-/

/-- Embedding of `tail.rstrip("]")`: remove all trailing `']'` characters. -/
def rstripBr (l : Str) : Str := (l.reverse.dropWhile (· == ']')).reverse

/-- Embedding of `parse_priority`. -/
def parsePriority (text : Str) : Str × Nat :=
  let fired : Option (Str × Nat) :=
    if containsSub (str "[P") text && endsWith ']' text then
      match rpartP text with
      | some (head, tail) =>
        if endsWith ']' tail then
          let value := rstripBr tail
          if isDigits value then some (pyStrip head, digitsToNat value) else none
        else none
      | none => none
    else none
  match fired with
  | some (t, p) => (pyStrip t, p)
  | none => (pyStrip text, 2)

/-!
## `scripts/plan_to_beads.py` — `parse_plan`

The Python loop mutates `current_feature` / `current_task` objects that also
sit inside the result list (a `- Notes:` line appends to the notes of an item
already emitted).  The embedding represents the two rolling pointers as
indices into the accumulated item list and performs the in-place note update
with `modifyAt`.
-/

/-- A parsed plan item (the `PlanItem` dataclass). -/
structure PlanItem where
  itemType : Str
  title : Str
  parentTitle : Option Str
  priority : Nat
  notes : List Str
deriving DecidableEq, Repr

/-- Parser state: emitted items plus the two rolling pointers
(`current_feature`, `current_task`) as indices into `items`. -/
structure ParseSt where
  items : List PlanItem
  curFeature : Option Nat
  curTask : Option Nat
deriving DecidableEq, Repr

/-- Replace the element at an index (in-place object mutation). -/
def modifyAt (f : α → α) : Nat → List α → List α
  | _, [] => []
  | 0, a :: l => f a :: l
  | n + 1, a :: l => a :: modifyAt f n l

/-- Value of `current_feature.title if current_feature else ""`. -/
def curFeatureTitle (st : ParseSt) : Str :=
  match st.curFeature with
  | some i =>
    match st.items[i]? with
    | some it => it.title
    | none => []
  | none => []

/-- Value of `current_task.title if current_task else ""`. -/
def curTaskTitle (st : ParseSt) : Str :=
  match st.curTask with
  | some i =>
    match st.items[i]? with
    | some it => it.title
    | none => []
  | none => []

/-- One iteration of the `parse_plan` loop body. -/
def step (st : ParseSt) (raw : Str) : ParseSt :=
  let line := pyRStrip raw
  if (str "### Feature:").isPrefixOf line then
    let tp := parsePriority (pyStrip (line.drop 12))
    { items := st.items ++ [⟨str "feature", tp.1, none, tp.2, []⟩],
      curFeature := some st.items.length,
      curTask := none }
  else if (str "- Task:").isPrefixOf (pyLStrip line) then
    let tp := parsePriority (pyStrip ((splitFirst (str "- Task:") line).getD []))
    { items := st.items ++ [⟨str "task", tp.1, some (curFeatureTitle st), tp.2, []⟩],
      curFeature := st.curFeature,
      curTask := some st.items.length }
  else if (str "- Subtask:").isPrefixOf (pyLStrip line) then
    -- Beads doesn't support subtask type, convert to task
    let tp := parsePriority (pyStrip ((splitFirst (str "- Subtask:") line).getD []))
    { st with items := st.items ++ [⟨str "task", tp.1, some (curTaskTitle st), tp.2, []⟩] }
  else if (str "- Notes:").isPrefixOf (pyLStrip line) then
    let note := pyStrip ((splitFirst (str "- Notes:") line).getD [])
    match st.curTask with
    | some i =>
      { st with items := modifyAt (fun it => { it with notes := it.notes ++ [note] }) i st.items }
    | none =>
      match st.curFeature with
      | some i =>
        { st with items := modifyAt (fun it => { it with notes := it.notes ++ [note] }) i st.items }
      | none => st
  else st

/-- Run the parser over all lines. -/
def runPlan (lines : List Str) : ParseSt :=
  lines.foldl step ⟨[], none, none⟩

/-- Embedding of `parse_plan`: the emitted item list. -/
def parsePlan (lines : List Str) : List PlanItem :=
  (runPlan lines).items

example :
    parsePlan [str "### Feature: Foo [P1]", str "- Task: Bar"] =
      [⟨str "feature", str "Foo", none, 1, []⟩,
       ⟨str "task", str "Bar", some (str "Foo"), 2, []⟩] := by
  decide

/-!
## `regenerate_changelog.py` — `extract_beads_issue`

```python
patterns = [r"\(bd-([a-z0-9]+)\)", r"Closes\s+beads-blueprint-([a-z0-9]+)"]
for pattern in patterns:
    if match := re.search(pattern, commit_msg, re.IGNORECASE):
        return match.group(1).lower()
return None
```

`re.search` returns the leftmost match; both patterns are backtracking-free
(the character following each greedy piece cannot occur inside it), so a
maximal-munch attempt at each position, scanning left to right, is faithful.
`re.IGNORECASE` does not affect the uncased literals `(`, `-`, `)`.
-/

/-- Attempt `\(bd-([a-z0-9]+)\)` (case-insensitive) anchored at the start of
`s`; returns the lowercased capture on success. -/
def tryParenAt (s : Str) : Option Str :=
  if headIs '(' s && ciPre (str "bd-") (s.drop 1) then
    let t := s.drop 4
    let run := t.takeWhile isAlnumA
    if run.isEmpty then none
    else if headIs ')' (t.drop run.length) then some (run.map lowerChar)
    else none
  else none

/-- Attempt `Closes\s+beads-blueprint-([a-z0-9]+)` (case-insensitive)
anchored at the start of `s`; returns the lowercased capture. -/
def tryClosesAt (s : Str) : Option Str :=
  if ciPre (str "closes") s then
    let t := s.drop 6
    let w := t.takeWhile isSpace
    if w.isEmpty then none
    else
      let u := t.drop w.length
      if ciPre (str "beads-blueprint-") u then
        let run := (u.drop 16).takeWhile isAlnumA
        if run.isEmpty then none else some (run.map lowerChar)
      else none
  else none

/-- Embedding of `re.search`: try the anchored matcher at every position, left to right. -/
def scanFor (f : Str → Option α) : Str → Option α
  | [] => f []
  | s@(_ :: t) =>
    match f s with
    | some r => some r
    | none => scanFor f t

/-- Embedding of `extract_beads_issue`: the parenthetical pattern is tried
first over the whole subject, then the `Closes` pattern. -/
def extractBeadsIssue (s : Str) : Option Str :=
  match scanFor tryParenAt s with
  | some r => some r
  | none => scanFor tryClosesAt s

/-!
## `regenerate_changelog.py` — `categorize_commit`

```python
if match := re.match(
    r"^(feat|fix|docs|refactor|perf|test|chore|style|build|ci)(\([^)]+\))?:\s*(.+)$",
    commit_msg,
):
    ...
```

The ten alternatives are mutually non-prefix, so at most one of them can
match at position 0 and the alternation needs no backtracking across
alternatives; the match is compiled below into a direct pattern match on the
leading characters.  `(\([^)]+\))?:` either sees `(`, a non-empty run of
non-`)` characters, `)`, `:` — or `:` directly; any other shape fails the
whole match (greedy `?` cannot fall back to the scopeless branch once the
subject starts with `(`, because the scopeless branch then requires `:` at a
position holding `(`).  `\s*(.+)$` on a newline-free remainder captures the
remainder with its maximal whitespace prefix removed, except that an
all-whitespace non-empty remainder captures just its last character.
-/

/-- The capture of `\s*(.+)$` on a newline-free remainder; `none` when the
remainder is empty. -/
def matchTail (rem : Str) : Option Str :=
  match rem.dropWhile isSpace with
  | [] =>
    match rem.reverse with
    | [] => none
    | c :: _ => some [c]
  | w => some w

/-- Match `(\([^)]+\))?:\s*(.+)$` against the text following the type token;
returns the capture of `(.+)`. -/
def afterType (r : Str) : Option Str :=
  match r with
  | ':' :: rem => matchTail rem
  | '(' :: t =>
    let inner := t.takeWhile (fun c => !(c == ')'))
    if inner.isEmpty then none
    else
      match t.drop inner.length with
      | ')' :: ':' :: rem => matchTail rem
      | _ => none
  | _ => none

/-- The conventional-commit alternation; the recognized type and the capture
of `(.+)`.  Alternatives in source order (they are mutually non-prefix, so
the order is immaterial). -/
def matchConv : Str → Option (Str × Str)
  | 'f' :: 'e' :: 'a' :: 't' :: r => (afterType r).map (fun m => (str "feat", m))
  | 'f' :: 'i' :: 'x' :: r => (afterType r).map (fun m => (str "fix", m))
  | 'd' :: 'o' :: 'c' :: 's' :: r => (afterType r).map (fun m => (str "docs", m))
  | 'r' :: 'e' :: 'f' :: 'a' :: 'c' :: 't' :: 'o' :: 'r' :: r =>
    (afterType r).map (fun m => (str "refactor", m))
  | 'p' :: 'e' :: 'r' :: 'f' :: r => (afterType r).map (fun m => (str "perf", m))
  | 't' :: 'e' :: 's' :: 't' :: r => (afterType r).map (fun m => (str "test", m))
  | 'c' :: 'h' :: 'o' :: 'r' :: 'e' :: r => (afterType r).map (fun m => (str "chore", m))
  | 's' :: 't' :: 'y' :: 'l' :: 'e' :: r => (afterType r).map (fun m => (str "style", m))
  | 'b' :: 'u' :: 'i' :: 'l' :: 'd' :: r => (afterType r).map (fun m => (str "build", m))
  | 'c' :: 'i' :: r => (afterType r).map (fun m => (str "ci", m))
  | _ => none

/-- The ten types recognized by the conventional-commit alternation. -/
def types10 : List Str :=
  [str "feat", str "fix", str "docs", str "refactor", str "perf",
   str "test", str "chore", str "style", str "build", str "ci"]

/-- The `type_map` table. -/
def typeMap : List (Str × Str) :=
  [(str "feat", str "Features"), (str "fix", str "Bug Fixes"),
   (str "docs", str "Documentation"), (str "perf", str "Performance"),
   (str "refactor", str "Code Quality")]

/-- Lookup `type_map.get(commit_type, "Other")`. -/
def typeMapGet (ty : Str) : Str :=
  match typeMap.find? (fun p => p.1 == ty) with
  | some p => p.2
  | none => str "Other"

/-- Keywords of the Features fallback heuristic. -/
def heurFeat : List Str := [str "add", str "implement", str "create", str "introduce"]

/-- Keywords of the Bug Fixes fallback heuristic. -/
def heurFix : List Str := [str "fix", str "resolve", str "correct", str "patch"]

/-- Embedding of `categorize_commit`. -/
def categorize (s : Str) : Str × Str :=
  match matchConv s with
  | some (ty, rest) => (typeMapGet ty, pyStrip rest)
  | none =>
    let low := s.map lowerChar
    if heurFeat.any (fun w => containsSub w low) then (str "Features", s)
    else if heurFix.any (fun w => containsSub w low) then (str "Bug Fixes", s)
    else (str "Other", s)

/-!
## `regenerate_changelog.py` — `group_commits`

The issue-title store (`.beads/issues.jsonl`) is an external collaborator,
modelled as a lookup function `getTitle : Str → Option Str` (`none` for a
missing file / absent key / malformed line).  `grouped` is a `defaultdict`,
modelled as a total function from keys to the (ordered) list of
`(display, original-commit)` pairs filed under that key.
-/

/-- Value of `get_beads_issue_title(issue_id) or f"Issue {issue_id}"`: Python `or`
also rejects an empty title. -/
def titleFor (getTitle : Str → Option Str) (id_ : Str) : Str :=
  match getTitle id_ with
  | some t => if t.isEmpty then str "Issue " ++ id_ else t
  | none => str "Issue " ++ id_

/-- The bucket key chosen for one commit: the tracker bucket
`beads:<id>` when a reference is extracted, else the classification
category. -/
def bucketKey (c : Str) : Str :=
  match extractBeadsIssue c with
  | some id_ => str "beads:" ++ id_
  | none => (categorize c).1

/-- The `(display, original)` pair appended for one commit. -/
def bucketEntry (getTitle : Str → Option Str) (c : Str) : Str × Str :=
  match extractBeadsIssue c with
  | some id_ => (titleFor getTitle id_, c)
  | none => ((categorize c).2, c)

/-- Append into a `defaultdict(list)`. -/
def addG (g : Str → List (Str × Str)) (k : Str) (v : Str × Str) :
    Str → List (Str × Str) :=
  fun k' => if k' = k then g k ++ [v] else g k'

/-- One iteration of the `group_commits` loop. -/
def groupStep (getTitle : Str → Option Str) (g : Str → List (Str × Str))
    (c : Str) : Str → List (Str × Str) :=
  addG g (bucketKey c) (bucketEntry getTitle c)

/-- Embedding of `group_commits`, as the bucket-lookup function. -/
def groupCommits (getTitle : Str → Option Str) (commits : List Str) :
    Str → List (Str × Str) :=
  commits.foldl (groupStep getTitle) (fun _ => [])

/-!
## `regenerate_changelog.py` — `build_section`, `ensure_version_section`
-/

/-- Embedding of `build_section`. -/
def buildSection (v d : Str) : Str :=
  str "## v" ++ v ++ str "\n\n*Released: " ++ d ++
  str "*\n\n### Features\n\n- TBD\n\n### Improvements\n\n- TBD\n\n### Bug Fixes\n\n- TBD\n\n"

/-- Does `^## v<version>\b` (with `re.MULTILINE`) match at the start of the
suffix `s`?  `\b` sits after the version: it requires word-ness to flip
between the preceding character (the last of `v`, or the literal `v` when the
version is empty) and the following one (end of input counts as non-word). -/
def headingAt (v s : Str) : Bool :=
  (str "## v" ++ v).isPrefixOf s &&
    (isWordChar (v.getLastD 'v') !=
      (match s.drop (4 + v.length) with
       | c :: _ => isWordChar c
       | [] => false))

/-- Scan for `headingAt` right after each newline. -/
def hasHeadingAux (v : Str) : Str → Bool
  | [] => false
  | c :: t => (c == '\n' && headingAt v t) || hasHeadingAux v t

/-- Embedding of the multiline search for the section heading pattern:
the pattern may fire at the start of the content or right after any
newline. -/
def hasHeading (v content : Str) : Bool :=
  headingAt v content || hasHeadingAux v content

/-- Python `str.splitlines(keepends=True)` (newline-only model). -/
def splitKE : Str → List Str
  | [] => []
  | c :: t =>
    if c = '\n' then [c] :: splitKE t
    else
      match splitKE t with
      | [] => [[c]]
      | l :: ls => (c :: l) :: ls

/-- Concatenation `"".join(lines)`. -/
def joinS (lines : List Str) : Str := lines.foldr (· ++ ·) []

/-- Embedding of `ensure_version_section` on the file's contents (the
returned string is what the function leaves on disk; in the already-present
branch the function returns before writing, leaving the contents
unchanged). -/
def ensureVersionSection (v d content : Str) : Str :=
  if hasHeading v content then content
  else
    match splitKE content with
    | l0 :: rest =>
      if pyStrip l0 = str "# Changelog" then joinS (l0 :: buildSection v d :: rest)
      else joinS (str "# Changelog\n" :: str "\n" :: buildSection v d :: l0 :: rest)
    | [] => joinS [str "# Changelog\n", str "\n", buildSection v d]

/-- Embedding of `ensure_version_section` including the missing-file bootstrap
(`CHANGELOG_FILE.write_text("# Changelog\n\n")`). -/
def ensureVersionSectionFile (v d : Str) (file : Option Str) : Str :=
  ensureVersionSection v d (file.getD (str "# Changelog\n\n"))

/-!
## `release.py` — `read_version`, `bump_version`, `write_version`

Both regexes match exactly the same strings
(`__version__\s*=\s*["\']\d+\.\d+\.\d+["\']`); they differ only in which
groups they capture, so one anchored matcher `tryVerAt` serves both.  Every
greedy piece (`\s*`, `\d+`) is followed by a literal that cannot occur inside
it, so maximal munch is faithful.
-/

/-- The literal `__version__`. -/
def litV : Str := str "__version__"

/-- Is `c` one of the quote characters of the class `["\']`? -/
def isQuote (c : Char) : Bool := c == '"' || c == '\''

/-- Match `__version__\s*=\s*["\']\d+\.\d+\.\d+["\']` anchored at the start
of `s`; on success return
`(head, a, b, c, closing-quote, rest)` where `head` is the text of
`__version__\s*=\s*["\']`, `a`/`b`/`c` are the three digit runs and `rest`
is the text after the match. -/
def tryVerAt (s : Str) : Option (Str × Str × Str × Str × Char × Str) :=
  if litV.isPrefixOf s then
    let r0 := s.drop 11
    let w1 := r0.takeWhile isSpace
    match r0.drop w1.length with
    | '=' :: r2 =>
      let w2 := r2.takeWhile isSpace
      match r2.drop w2.length with
      | q :: r4 =>
        if isQuote q then
          let a := r4.takeWhile isDigit
          if a.isEmpty then none
          else
            match r4.drop a.length with
            | '.' :: r5 =>
              let b := r5.takeWhile isDigit
              if b.isEmpty then none
              else
                match r5.drop b.length with
                | '.' :: r6 =>
                  let c := r6.takeWhile isDigit
                  if c.isEmpty then none
                  else
                    match r6.drop c.length with
                    | q2 :: rest =>
                      if isQuote q2 then
                        some (litV ++ w1 ++ '=' :: w2 ++ [q], a, b, c, q2, rest)
                      else none
                    | [] => none
                | _ => none
            | _ => none
        else none
      | [] => none
    | _ => none
  else none

/-- Embedding of `read_version` on the version file's contents:
the leftmost match of the version regex, as a numeric triple
(`None` models the `ValueError` raised when nothing matches). -/
def readVersion (content : Str) : Option (Nat × Nat × Nat) :=
  scanFor (fun s => (tryVerAt s).map (fun m => (digitsToNat m.2.1, digitsToNat m.2.2.1, digitsToNat m.2.2.2.1))) content

/-- Worker for `write_version`'s `re.sub`, with structural fuel: each step
consumes at least one character of the input (a match consumes at least
twelve), so `input.length` units of fuel always suffice. -/
def writeSubAux (v : Str) : Nat → Str → Str
  | 0, s => s
  | _ + 1, [] => []
  | fuel + 1, s@(c :: t) =>
    match tryVerAt s with
    | some m => m.1 ++ v ++ m.2.2.2.2.1 :: writeSubAux v fuel m.2.2.2.2.2
    | none => c :: writeSubAux v fuel t

/-- Embedding of `write_version`'s `re.sub`: replace every (leftmost,
non-overlapping) match of the version pattern, substituting the digit part
with `v` and keeping both groups. -/
def writeSub (v s : Str) : Str := writeSubAux v s.length s

/-- Worker for `natDigits`; `n + 1` units of fuel are plenty (the digit
count of `n` never exceeds `n + 1`). -/
def natDigitsAux : Nat → Nat → Str
  | 0, _ => []
  | fuel + 1, n =>
    if n < 10 then [Char.ofNat (48 + n)]
    else natDigitsAux fuel (n / 10) ++ [Char.ofNat (48 + n % 10)]

/-- Decimal digits of a natural number (Python `f"{n}"`). -/
def natDigits (n : Nat) : Str := natDigitsAux (n + 1) n

/-- Format `f"{major}.{minor}.{patch}"`. -/
def versionStr (t : Nat × Nat × Nat) : Str :=
  natDigits t.1 ++ '.' :: natDigits t.2.1 ++ '.' :: natDigits t.2.2

/-- Embedding of `write_version` on the version file's contents. -/
def writeVersion (t : Nat × Nat × Nat) (content : Str) : Str :=
  writeSub (versionStr t) content

/-- Embedding of `bump_version` (`none` models the `ValueError` branch). -/
def bumpVersion (cur : Nat × Nat × Nat) (bumpType : Str) : Option (Nat × Nat × Nat) :=
  if bumpType = str "major" then some (cur.1 + 1, 0, 0)
  else if bumpType = str "minor" then some (cur.1, cur.2.1 + 1, 0)
  else if bumpType = str "patch" then some (cur.1, cur.2.1, cur.2.2 + 1)
  else none

/-!
## `scripts/plan_to_beads.py` — `get_git_user`, `build_issue_json`, `main`

Subprocess results are modelled by a `GitEnv` record: `available = false`
models the `FileNotFoundError` branch (no git executable); `nameOk`/`emailOk`
model the exit codes of the two `git config` queries.
-/

/-- Environment of the two `git config` subprocess calls. -/
structure GitEnv where
  available : Bool
  nameOk : Bool
  nameOut : Str
  emailOk : Bool
  emailOut : Str

/-- Embedding of `get_git_user`: returns `(name, email)` with the documented
fallbacks. -/
def getGitUser (e : GitEnv) : Str × Str :=
  if e.available then
    ((if e.nameOk then pyStrip e.nameOut else str "User"),
     (if e.emailOk then pyStrip e.emailOut else str "user@example.com"))
  else (str "User", str "user@example.com")

/-- In `main` the code destructures `created_by, owner = get_git_user()` and then calls
`write_jsonl(..., owner, created_by)`: the `owner` argument receives the
second component of `get_git_user` and `created_by` the first. -/
def mainOwner (e : GitEnv) : Str := (getGitUser e).2

/-- See `mainOwner`. -/
def mainCreatedBy (e : GitEnv) : Str := (getGitUser e).1

/-- A serialized issue record (`build_issue_json`'s dict). -/
structure IssueRecord where
  id : Str
  title : Str
  description : Str
  status : Str
  priority : Nat
  issueType : Str
  owner : Str
  createdAt : Str
  createdBy : Str
  updatedAt : Str
deriving DecidableEq, Repr

/-- Embedding of `build_description`. -/
def buildDescription (item : PlanItem) (planName : Str) : Str :=
  joinS (List.intersperse (str ". ")
    ((str "Plan: " ++ planName) ::
     (match item.parentTitle with
      | some p => if p.isEmpty then [] else [str "Parent: " ++ p]
      | none => []) ++
     (if item.notes.isEmpty then []
      else [str "Notes: " ++ joinS (List.intersperse (str "; ") item.notes)])))

/-- Embedding of `build_issue_json`; the random id suffix and the timestamp
are explicit parameters. -/
def buildIssueJson (item : PlanItem) (planName pfx idSuffix : Str)
    (owner createdBy now : Str) : IssueRecord :=
  { id := pfx ++ '-' :: idSuffix
    title := item.title
    description := buildDescription item planName
    status := str "open"
    priority := item.priority
    issueType := item.itemType
    owner := owner
    createdAt := now
    createdBy := createdBy
    updatedAt := now }

/-- The optional parenthesized scope of a conventional commit, written out:
`(inner)` when present, nothing when absent. -/
def scopeStr : Option Str → Str
  | none => []
  | some inn => '(' :: (inn ++ [')'])

/-- Modelled from the spec (§4.5), for the refinement side of C5: the title
of the most recently seen task since the last feature header (`none` when no
task is active).  Scans the lines with the same line-recognition tests as the
parser. -/
def specTaskStep (acc : Option Str) (raw : Str) : Option Str :=
  let line := pyRStrip raw
  if (str "### Feature:").isPrefixOf line then none
  else if (str "- Task:").isPrefixOf (pyLStrip line) then
    some (parsePriority (pyStrip ((splitFirst (str "- Task:") line).getD []))).1
  else acc

/-- Modelled from the spec (§4.5): fold `specTaskStep` over the lines. -/
def specMostRecentTaskTitle (lines : List Str) : Option Str :=
  lines.foldl specTaskStep none

/-- Invariant tying the parser's `current_task` pointer to the spec-side
most-recent-task title: when no task is active the spec value is `none`;
when one is, the pointed-to item exists and its title is the spec value. -/
def TaskInv (st : ParseSt) (o : Option Str) : Prop :=
  match st.curTask with
  | none => o = none
  | some i => ∃ it, st.items[i]? = some it ∧ o = some it.title

/-! ## General list lemmas -/

theorem isPrefixOf_self_append (p t : Str) : p.isPrefixOf (p ++ t) = true := by
  rw [List.isPrefixOf_iff_prefix]
  exact List.prefix_append _ _

theorem dropWhile_dropWhile (p : Char → Bool) (l : Str) :
    (l.dropWhile p).dropWhile p = l.dropWhile p := by
  induction l with
  | nil => rfl
  | cons c t ih =>
    by_cases h : p c <;> simp [List.dropWhile_cons, h, ih]

theorem takeWhile_append_stop (p : Char → Bool) (l₁ : Str) (b : Char) (l₂ : Str)
    (h : ∀ a ∈ l₁, p a = true) (hb : p b = false) :
    (l₁ ++ b :: l₂).takeWhile p = l₁ := by
  rw [List.takeWhile_append_of_pos (fun a ha => h a ha)]
  simp [List.takeWhile_cons, hb]

theorem dropWhile_append_stop (p : Char → Bool) (l₁ : Str) (b : Char) (l₂ : Str)
    (h : ∀ a ∈ l₁, p a = true) (hb : p b = false) :
    (l₁ ++ b :: l₂).dropWhile p = b :: l₂ := by
  rw [List.dropWhile_append_of_pos (fun a ha => h a ha)]
  simp [List.dropWhile_cons, hb]

theorem scanFor_append_none {α : Type} (f : Str → Option α) (l₁ l₂ : Str)
    (h : ∀ i, i < l₁.length → f ((l₁ ++ l₂).drop i) = none) :
    scanFor f (l₁ ++ l₂) = scanFor f l₂ := by
  induction l₁ with
  | nil => rfl
  | cons c t ih =>
    have h0 : f (c :: (t ++ l₂)) = none := by
      have := h 0 (by simp)
      simpa using this
    simp only [List.cons_append, scanFor, List.append_eq]
    rw [h0]
    exact ih (fun i hi => by
      have := h (i + 1) (by simp; omega)
      simpa [List.drop_succ_cons] using this)

theorem modifyAt_getElem? (f : α → α) (l : List α) (i : Nat) :
    (modifyAt f i l)[i]? = (l[i]?).map f := by
  induction l generalizing i with
  | nil => simp [modifyAt]
  | cons a t ih =>
    cases i with
    | zero => simp [modifyAt]
    | succ n => simpa [modifyAt] using ih n

theorem modifyAt_length (f : α → α) (l : List α) (i : Nat) :
    (modifyAt f i l).length = l.length := by
  induction l generalizing i with
  | nil => simp [modifyAt]
  | cons a t ih =>
    cases i with
    | zero => simp [modifyAt]
    | succ n => simpa [modifyAt] using ih n

theorem splitKE_eq_nil_iff (s : Str) : splitKE s = [] ↔ s = [] := by
  constructor
  · intro h
    cases s with
    | nil => rfl
    | cons c t =>
      by_cases hc : c = '\n'
      · simp [splitKE, hc] at h
      · simp only [splitKE, if_neg hc] at h
        cases hs : splitKE t with
        | nil => rw [hs] at h; exact absurd h (by simp)
        | cons l ls => rw [hs] at h; exact absurd h (by simp)
  · intro h; subst h; rfl

/-! ## C1 — grouping files every commit in exactly one bucket -/

theorem bucketEntry_snd (getTitle : Str → Option Str) (c : Str) :
    (bucketEntry getTitle c).2 = c := by
  unfold bucketEntry
  cases extractBeadsIssue c <;> rfl

theorem groupCommits_foldl_lookup (getTitle : Str → Option Str)
    (commits : List Str) (g₀ : Str → List (Str × Str)) (k : Str) :
    ((commits.foldl (groupStep getTitle) g₀) k).map Prod.snd
      = (g₀ k).map Prod.snd ++ commits.filter (fun c => bucketKey c == k) := by
  induction commits generalizing g₀ with
  | nil => simp
  | cons c cs ih =>
    rw [List.foldl_cons, ih]
    by_cases hk : bucketKey c = k
    · subst hk
      simp [groupStep, addG, List.filter_cons, bucketEntry_snd]
    · have hk' : (bucketKey c == k) = false := beq_eq_false_iff_ne.mpr hk
      have hk'' : k ≠ bucketKey c := fun e => hk e.symm
      simp [groupStep, addG, List.filter_cons, hk', if_neg hk'']

/-- C1. For every list of commit subjects and every bucket key `k`, the
commits filed under `k` by `group_commits` are exactly the input commits
whose `bucketKey` (the tracker bucket `beads:<id>` when a reference is
extracted, else the classification category) equals `k`, in input order.
Hence every commit lands in exactly one bucket — under its tracker id when a
reference is extracted, under its category otherwise — with no duplication
and no omission. -/
theorem group_commits_partition (getTitle : Str → Option Str)
    (commits : List Str) (k : Str) :
    ((groupCommits getTitle commits) k).map Prod.snd
      = commits.filter (fun c => bucketKey c == k) := by
  unfold groupCommits
  rw [groupCommits_foldl_lookup]
  simp

/-! ## C4 — a feature header followed by a task bullet -/

/-- C4. Parsing `### Feature: Foo [P1]` followed by `- Task: Bar` emits
exactly a feature item titled `Foo` with priority 1 and a task item titled
`Bar` with parent title `Foo` and the default priority 2, in order. -/
theorem plan_feature_task_pair :
    parsePlan [str "### Feature: Foo [P1]", str "- Task: Bar"] =
      [⟨str "feature", str "Foo", none, 1, []⟩,
       ⟨str "task", str "Bar", some (str "Foo"), 2, []⟩] := by
  decide

/-! ## C8 — inserting an already-present version leaves the changelog
byte-identical -/

/-- C8. When the changelog content already matches the section-heading
pattern `^## v<version>\b` (multiline), `ensure_version_section` returns
before modifying anything: the resulting contents are byte-identical and the
version is not duplicated. -/
theorem ensure_version_section_idem (v d content : Str)
    (h : hasHeading v content = true) :
    ensureVersionSection v d content = content := by
  simp [ensureVersionSection, h]

theorem ensure_version_section_idem_witness :
    hasHeading (str "1.2.3") (str "# Changelog\n\n## v1.2.3\n\n- stuff\n") = true ∧
    ensureVersionSection (str "1.2.3") (str "2026-02-03")
        (str "# Changelog\n\n## v1.2.3\n\n- stuff\n")
      = str "# Changelog\n\n## v1.2.3\n\n- stuff\n" :=
  ⟨by decide, ensure_version_section_idem _ _ _ (by decide)⟩

/-! ## C9 — owner / createdBy are swapped by `main`

`get_git_user` returns `(name, email)` — name falling back to `"User"`,
email to `"user@example.com"` — but `main` destructures the pair as
`created_by, owner = get_git_user()`, so every record is built with
`owner` = email and `created_by` = name, the opposite of the claim. -/

/-- C9 (code bug). Evaluating the code at the failing input: with the
identity configuration unavailable, every record built in the run has
`owner = "user@example.com"` and `createdBy = "User"` — the two fallback
literals land in the swapped fields.  With the configuration available the
swap persists: `owner` receives the configured email and `createdBy` the
configured name. -/
theorem owner_createdBy_swapped :
    (∀ item planName pfx sfx now,
      (buildIssueJson item planName pfx sfx
          (mainOwner ⟨false, false, [], false, []⟩)
          (mainCreatedBy ⟨false, false, [], false, []⟩) now).owner
        = str "user@example.com" ∧
      (buildIssueJson item planName pfx sfx
          (mainOwner ⟨false, false, [], false, []⟩)
          (mainCreatedBy ⟨false, false, [], false, []⟩) now).createdBy
        = str "User") ∧
    (∀ (n m : Str) item planName pfx sfx now,
      (buildIssueJson item planName pfx sfx
          (mainOwner ⟨true, true, n, true, m⟩)
          (mainCreatedBy ⟨true, true, n, true, m⟩) now).owner = pyStrip m ∧
      (buildIssueJson item planName pfx sfx
          (mainOwner ⟨true, true, n, true, m⟩)
          (mainCreatedBy ⟨true, true, n, true, m⟩) now).createdBy = pyStrip n) := by
  exact ⟨fun _ _ _ _ _ => ⟨rfl, rfl⟩, fun _ _ _ _ _ _ _ => ⟨rfl, rfl⟩⟩

/-! ## C2 — counterexample: an unknown leading type does not yield `Other` -/

/-- C2 (counterexample). The subject `foo: add widget` has the
conventional `type: message` shape with leading type token `foo`, which is
outside the known type set; the claim says its category is `Other`, but the
code falls back to the keyword heuristics and returns `Features`. -/
theorem categorize_unknown_type_cex :
    categorize (str "foo: add widget") = (str "Features", str "foo: add widget") ∧
    str "Features" ≠ str "Other" := by
  decide

/-! ## C3 — counterexample: the leftmost parenthetical reference wins -/

/-- C3 (counterexample). The subject `(bd-a) (bd-xyz)` contains the
parenthetical reference `(bd-xyz)` with `xyz` lowercase alphanumeric, yet
extraction returns `a` — the id of the *leftmost* parenthetical reference —
so the claim's "returns `xyz` regardless of the surrounding text" fails. -/
theorem extract_paren_leftmost_cex :
    str "(bd-a) (bd-xyz)" = str "(bd-a) " ++ str "(bd-xyz)" ∧
    extractBeadsIssue (str "(bd-a) (bd-xyz)") = some (str "a") ∧
    str "a" ≠ str "xyz" := by
  decide

/-! ## C6 — `parse_priority` non-firing cases return the *trimmed* text -/

/-- C6 (counterexample). `" x[Pq]"` contains `[P` and ends with `]`, and
the captured value `q` is not all-digit; the claim says the string is
returned untouched, but the code returns `text.strip()`, which differs from
the input when the input carries surrounding whitespace. -/
theorem parse_priority_untouched_cex :
    containsSub (str "[P") (str " x[Pq]") = true ∧
    endsWith ']' (str " x[Pq]") = true ∧
    parsePriority (str " x[Pq]") = (str "x[Pq]", 2) ∧
    str "x[Pq]" ≠ str " x[Pq]" := by
  decide

/-- C6 (amended). Priority extraction fires only when the text contains
`[P` and ends with `]`; whenever it does not fire — in particular whenever
the captured value between the last `[P` and the trailing `]`s is not
all-digit — the result is the input trimmed of surrounding whitespace with
the marker kept as plain text (identical to the input whenever the input has
no surrounding whitespace), with the default priority 2. -/
theorem parse_priority_default (text : Str)
    (h : (containsSub (str "[P") text && endsWith ']' text) = false ∨
         ∀ head tail, rpartP text = some (head, tail) →
           isDigits (rstripBr tail) = false) :
    parsePriority text = (pyStrip text, 2) := by
  rcases h with h | h
  · simp [parsePriority, h]
  · by_cases hg : (containsSub (str "[P") text && endsWith ']' text) = true
    · cases hr : rpartP text with
      | none => simp [parsePriority, hg, hr]
      | some p =>
        obtain ⟨hd, tl⟩ := p
        have hv := h hd tl hr
        cases hE : endsWith ']' tl <;> simp [parsePriority, hg, hr, hv, hE]
    · have hg' : (containsSub (str "[P") text && endsWith ']' text) = false := by
        simpa using hg
      simp [parsePriority, hg']

theorem parse_priority_default_witness :
    parsePriority (str "abc[Pxy]") = (pyStrip (str "abc[Pxy]"), 2) ∧
    pyStrip (str "abc[Pxy]") = str "abc[Pxy]" :=
  ⟨parse_priority_default _ (Or.inr (fun hd tl hr => by
      rw [show rpartP (str "abc[Pxy]") = some (str "abc", str "xy]") from by decide] at hr
      have h2 := Option.some.inj hr
      injection h2 with h3 h4
      rw [← h4]
      decide)),
   by decide⟩

/-! ## C2 — conventional-commit classification (amended) -/

theorem matchConv_type (ty : Str) (hty : ty ∈ types10) (R : Str) :
    matchConv (ty ++ R) = (afterType R).map (fun m => (ty, m)) := by
  unfold types10 at hty
  fin_cases hty <;> rfl

theorem matchTail_strip (msg : Str) (h : msg ≠ []) :
    ∃ cap, matchTail msg = some cap ∧ pyStrip cap = pyStrip msg := by
  unfold matchTail
  cases hw : msg.dropWhile isSpace with
  | cons w ws =>
    refine ⟨w :: ws, rfl, ?_⟩
    rw [← hw]
    unfold pyStrip pyLStrip
    rw [dropWhile_dropWhile]
  | nil =>
    have hall : ∀ c ∈ msg, isSpace c = true := List.dropWhile_eq_nil_iff.mp hw
    cases hrev : msg.reverse with
    | nil => exact absurd (by simpa using hrev) h
    | cons c rest =>
      refine ⟨[c], rfl, ?_⟩
      have hc : c ∈ msg := by
        have : c ∈ msg.reverse := by rw [hrev]; exact List.mem_cons_self _ _
        simpa using this
      have hcs : isSpace c = true := hall c hc
      unfold pyStrip pyLStrip pyRStrip
      rw [hw]
      simp [List.dropWhile_cons, hcs]

theorem afterType_scope (sc : Option Str) (msg : Str) (hmsg : msg ≠ [])
    (hsc : ∀ inn, sc = some inn → inn ≠ [] ∧ ')' ∉ inn) :
    ∃ cap, afterType (scopeStr sc ++ ':' :: msg) = some cap ∧
      pyStrip cap = pyStrip msg := by
  obtain ⟨cap, hcap, hs⟩ := matchTail_strip msg hmsg
  cases sc with
  | none =>
    refine ⟨cap, ?_, hs⟩
    simpa [scopeStr, afterType] using hcap
  | some inn =>
    obtain ⟨hne, hnotin⟩ := hsc inn rfl
    have hshape : scopeStr (some inn) ++ ':' :: msg
        = '(' :: (inn ++ ')' :: ':' :: msg) := by
      simp [scopeStr]
    have htw : (inn ++ ')' :: ':' :: msg).takeWhile (fun c => !(c == ')')) = inn :=
      takeWhile_append_stop _ _ _ _
        (fun a ha => by
          simp only [Bool.not_eq_true']
          exact beq_eq_false_iff_ne.mpr (fun e => hnotin (e ▸ ha)))
        (by simp)
    have hie : inn.isEmpty = false := by
      cases inn with
      | nil => exact absurd rfl hne
      | cons _ _ => rfl
    have hdr : (inn ++ ')' :: ':' :: msg).drop inn.length = ')' :: ':' :: msg :=
      List.drop_left _ _
    refine ⟨cap, ?_, hs⟩
    rw [hshape]
    simp only [afterType, htw, hie, hdr]
    exact hcap

/-- C2 (amended). For every subject `type[(scope)]: message` whose
leading type token is one of the ten recognized conventional types, the
category is `type_map.get(type, "Other")` — the five-entry table
`{feat→Features, fix→Bug Fixes, docs→Documentation, perf→Performance,
refactor→Code Quality}` for the tabled types, `Other` for the remaining
recognized types (`test`, `chore`, `style`, `build`, `ci`) — and the cleaned
message is `message` trimmed of surrounding whitespace.  (The original
claim's second half fails: a leading token outside the recognized set falls
to the keyword heuristics, not to `Other`; see the counterexample.) -/
theorem categorize_conventional (ty : Str) (sc : Option Str) (msg : Str)
    (hty : ty ∈ types10) (hmsg : msg ≠ []) (hnl : '\n' ∉ msg)
    (hsc : ∀ inn, sc = some inn → inn ≠ [] ∧ ')' ∉ inn) :
    categorize (ty ++ (scopeStr sc ++ ':' :: msg)) = (typeMapGet ty, pyStrip msg) := by
  obtain ⟨cap, hcap, hs⟩ := afterType_scope sc msg hmsg hsc
  unfold categorize
  rw [matchConv_type ty hty (scopeStr sc ++ ':' :: msg), hcap]
  simp [hs]

theorem categorize_conventional_witness :
    categorize (str "fix" ++ (scopeStr (some (str "ui")) ++ ':' :: str " crash ")) =
      (typeMapGet (str "fix"), pyStrip (str " crash ")) ∧
    str "fix" ++ (scopeStr (some (str "ui")) ++ ':' :: str " crash ")
      = str "fix(ui): crash " ∧
    typeMapGet (str "fix") = str "Bug Fixes" ∧
    pyStrip (str " crash ") = str "crash" :=
  ⟨categorize_conventional _ _ _ (by decide) (by decide) (by decide)
      (fun inn h => by
        rw [← Option.some.inj h]
        exact ⟨by decide, by decide⟩),
   by decide, by decide, by decide⟩

/-! ## C3 — parenthetical tracker references (amended) -/

theorem scanParen_skip (s1 X : Str) (h : '(' ∉ s1) :
    scanFor tryParenAt (s1 ++ X) = scanFor tryParenAt X := by
  induction s1 with
  | nil => rfl
  | cons c t ih =>
    have hc : c ≠ '(' := fun e => h (by simp [e])
    have hcf : tryParenAt (c :: (t ++ X)) = none := by
      have hb : (c == '(') = false := beq_eq_false_iff_ne.mpr hc
      simp [tryParenAt, headIs, hb]
    simp only [List.cons_append, scanFor, List.append_eq]
    rw [hcf]
    exact ih (fun hm => h (List.mem_cons_of_mem _ hm))

/-- C3 (amended). Tracker extraction returns the id of the *leftmost*
parenthetical reference.  First conjunct: when no `'('` occurs earlier in the
subject, a reference `(bd-xyz)` with `xyz` non-empty lowercase alphanumeric
yields exactly `xyz`, whatever text follows.  Second conjunct: whenever the
parenthetical pattern matches anywhere in the subject, its result is
returned — it always wins over any `Closes` reference (the second pattern is
not even consulted). -/
theorem extract_paren_amended :
    (∀ s1 xyz s2 : Str, '(' ∉ s1 → xyz ≠ [] →
      (∀ c ∈ xyz, isAlnumA c = true ∧ lowerChar c = c) →
      extractBeadsIssue (s1 ++ (str "(bd-" ++ (xyz ++ (')' :: s2)))) = some xyz) ∧
    (∀ s x, scanFor tryParenAt s = some x → extractBeadsIssue s = some x) := by
  constructor
  · intro s1 xyz s2 h1 h2 h3
    have htw : (xyz ++ ')' :: s2).takeWhile isAlnumA = xyz :=
      takeWhile_append_stop _ _ _ _ (fun a ha => (h3 a ha).1) (by decide)
    have hie : xyz.isEmpty = false := by
      cases xyz with
      | nil => exact absurd rfl h2
      | cons _ _ => rfl
    have hdr : (xyz ++ ')' :: s2).drop xyz.length = ')' :: s2 := List.drop_left _ _
    have hmap : xyz.map lowerChar = xyz := by
      rw [List.map_congr_left (fun a ha => (h3 a ha).2)]
      exact List.map_id xyz
    have hX : tryParenAt ('(' :: 'b' :: 'd' :: '-' :: (xyz ++ ')' :: s2)) = some xyz := by
      unfold tryParenAt
      rw [if_pos (show (headIs '(' ('(' :: 'b' :: 'd' :: '-' :: (xyz ++ ')' :: s2)) &&
            ciPre (str "bd-") (List.drop 1 ('(' :: 'b' :: 'd' :: '-' :: (xyz ++ ')' :: s2)))) = true
          from rfl)]
      simp [headIs, List.drop_succ_cons, List.drop_zero, htw, hie, hdr, hmap]
    have hshape : str "(bd-" ++ (xyz ++ ')' :: s2)
        = '(' :: 'b' :: 'd' :: '-' :: (xyz ++ ')' :: s2) := rfl
    have hscan : scanFor tryParenAt (str "(bd-" ++ (xyz ++ (')' :: s2))) = some xyz := by
      rw [hshape]
      simp only [scanFor]
      rw [hX]
    unfold extractBeadsIssue
    rw [scanParen_skip s1 _ h1, hscan]
  · intro s x h
    simp [extractBeadsIssue, h]

theorem extract_paren_amended_witness :
    extractBeadsIssue (str "fix: " ++ (str "(bd-" ++ (str "ab1" ++ (')' :: str " done"))))
      = some (str "ab1") ∧
    str "fix: " ++ (str "(bd-" ++ (str "ab1" ++ (')' :: str " done")))
      = str "fix: (bd-ab1) done" ∧
    scanFor tryParenAt (str "x (bd-z) Closes beads-blueprint-q") = some (str "z") ∧
    extractBeadsIssue (str "x (bd-z) Closes beads-blueprint-q") = some (str "z") :=
  ⟨extract_paren_amended.1 (str "fix: ") (str "ab1") (str " done")
      (by decide) (by decide) (by decide),
   by decide, by decide,
   extract_paren_amended.2 _ _ (by decide)⟩

/-! ## C5 — subtask emission and parent resolution -/

theorem isPrefixOf_cons_ne (a b : Char) (as bs : Str) (h : (a == b) = false) :
    List.isPrefixOf (a :: as) (b :: bs) = false := by
  simp [List.isPrefixOf]
  intro e
  rw [e] at h
  simp at h

theorem splitFirst_ws (p0 : Char) (ps ws tail : Str)
    (hp0 : isSpace p0 = false) (hws : ∀ c ∈ ws, isSpace c = true) :
    splitFirst (p0 :: ps) (ws ++ ((p0 :: ps) ++ tail)) = some tail := by
  induction ws with
  | nil =>
    show splitFirst (p0 :: ps) ((p0 :: ps) ++ tail) = some tail
    rw [show (p0 :: ps) ++ tail = p0 :: (ps ++ tail) from rfl]
    simp only [splitFirst]
    rw [if_pos (show List.isPrefixOf (p0 :: ps) (p0 :: (ps ++ tail)) = true from
      isPrefixOf_self_append (p0 :: ps) tail)]
    rw [show (p0 :: (ps ++ tail)) = (p0 :: ps) ++ tail from rfl]
    rw [show (p0 :: ps).length = ps.length + 1 from rfl]
    rw [show ((p0 :: ps) ++ tail).drop (ps.length + 1) = (ps ++ tail).drop ps.length from rfl]
    rw [List.drop_left]
  | cons c t ih =>
    have hcs := hws c (List.mem_cons_self c t)
    have hne : (p0 == c) = false := beq_eq_false_iff_ne.mpr (fun e => by
      rw [e] at hp0; rw [hp0] at hcs; exact absurd hcs (by simp))
    show splitFirst (p0 :: ps) (c :: (t ++ ((p0 :: ps) ++ tail))) = some tail
    simp only [splitFirst]
    rw [if_neg (by rw [isPrefixOf_cons_ne _ _ _ _ hne]; simp)]
    exact ih (fun a ha => hws a (List.mem_cons_of_mem _ ha))

theorem taskInv_step (st : ParseSt) (o : Option Str) (raw : Str)
    (h : TaskInv st o) : TaskInv (step st raw) (specTaskStep o raw) := by
  unfold step specTaskStep
  by_cases h1 : ((str "### Feature:").isPrefixOf (pyRStrip raw)) = true
  · simp [TaskInv, h1]
  · by_cases h2 : ((str "- Task:").isPrefixOf (pyLStrip (pyRStrip raw))) = true
    · simp [TaskInv, h1, h2, List.getElem?_concat_length]
    · by_cases h3 : ((str "- Subtask:").isPrefixOf (pyLStrip (pyRStrip raw))) = true
      · simp only [h1, h2, h3, if_true, if_false, Bool.false_eq_true]
        unfold TaskInv at h ⊢
        cases hct : st.curTask with
        | none => simp only [hct] at h ⊢; exact h
        | some i =>
          rw [hct] at h
          obtain ⟨it, hit, ho⟩ := h
          have hi : i < st.items.length := by
            have := List.getElem?_eq_some.mp hit
            exact this.1
          exact ⟨it, by rw [List.getElem?_append_left hi]; exact hit, ho⟩
      · by_cases h4 : ((str "- Notes:").isPrefixOf (pyLStrip (pyRStrip raw))) = true
        · simp only [h1, h2, h3, h4, if_true, if_false, Bool.false_eq_true]
          unfold TaskInv at h ⊢
          cases hct : st.curTask with
          | none =>
            rw [hct] at h
            cases hcf : st.curFeature <;> simp [hct, h]
          | some i =>
            rw [hct] at h
            obtain ⟨it, hit, ho⟩ := h
            simp only [hct]
            refine ⟨{ it with notes := it.notes ++
              [pyStrip ((splitFirst (str "- Notes:") (pyRStrip raw)).getD [])] }, ?_, ?_⟩
            · rw [modifyAt_getElem?, hit]; rfl
            · exact ho
        · simp only [h1, h2, h3, h4, if_false, Bool.false_eq_true]
          exact h

theorem taskInv_foldl (lines : List Str) (st : ParseSt) (o : Option Str)
    (h : TaskInv st o) :
    TaskInv (lines.foldl step st) (lines.foldl specTaskStep o) := by
  induction lines generalizing st o with
  | nil => exact h
  | cons l ls ih => exact ih _ _ (taskInv_step _ _ _ h)

/-- C5. First conjunct: processing a `- Subtask:` line in any parser
state appends exactly one item whose `itemType` is `"task"`, whose parent
title is the current task's title (the empty string when no task is active —
never the enclosing feature's title), with empty notes, and leaves both
rolling pointers (in particular `current_task`) unchanged.  Second conjunct:
after processing any lines, the current task's title is exactly the title of
the most recent task since the last feature header, per the spec-side scan
(empty string when none is active). -/
theorem subtask_parent (st : ParseSt) (raw ws rest : Str) (lines : List Str)
    (hws : ∀ c ∈ ws, isSpace c = true)
    (hline : pyRStrip raw = ws ++ (str "- Subtask:" ++ rest)) :
    step st raw = { st with items := st.items ++
        [⟨str "task", (parsePriority (pyStrip rest)).1, some (curTaskTitle st),
          (parsePriority (pyStrip rest)).2, []⟩] } ∧
    curTaskTitle (runPlan lines) = (specMostRecentTaskTitle lines).getD [] := by
  constructor
  · have hfeat : ((str "### Feature:").isPrefixOf (ws ++ (str "- Subtask:" ++ rest))) = false := by
      cases ws with
      | nil => rfl
      | cons c t =>
        have hcs := hws c (List.mem_cons_self c t)
        have hne : ('#' == c) = false := beq_eq_false_iff_ne.mpr (fun e => by
          rw [← e] at hcs; exact absurd hcs (by decide))
        show List.isPrefixOf ('#' :: str "## Feature:") (c :: (t ++ (str "- Subtask:" ++ rest))) = false
        exact isPrefixOf_cons_ne _ _ _ _ hne
    have hlstrip : pyLStrip (ws ++ (str "- Subtask:" ++ rest)) = str "- Subtask:" ++ rest := by
      show (ws ++ ('-' :: (str " Subtask:" ++ rest))).dropWhile isSpace = str "- Subtask:" ++ rest
      exact dropWhile_append_stop _ _ _ _ hws (by decide)
    have htask : ((str "- Task:").isPrefixOf (str "- Subtask:" ++ rest)) = false := rfl
    have hsub : ((str "- Subtask:").isPrefixOf (str "- Subtask:" ++ rest)) = true :=
      isPrefixOf_self_append _ _
    have hsplit : splitFirst (str "- Subtask:") (ws ++ (str "- Subtask:" ++ rest)) = some rest := by
      show splitFirst ('-' :: str " Subtask:") (ws ++ (('-' :: str " Subtask:") ++ rest)) = some rest
      exact splitFirst_ws _ _ _ _ (by decide) hws
    unfold step
    rw [hline]
    simp [hfeat, hlstrip, htask, hsub, hsplit]

  · have hinv := taskInv_foldl lines ⟨[], none, none⟩ none rfl
    unfold runPlan specMostRecentTaskTitle
    unfold curTaskTitle
    unfold TaskInv at hinv
    cases hct : (lines.foldl step ⟨[], none, none⟩).curTask with
    | none =>
      rw [hct] at hinv
      rw [hinv]
      rfl
    | some i =>
      rw [hct] at hinv
      obtain ⟨it, hit, ho⟩ := hinv
      simp only []
      rw [hit, ho]
      rfl

theorem subtask_parent_witness :
    step ⟨[⟨str "feature", str "F", none, 2, []⟩,
           ⟨str "task", str "T", some (str "F"), 2, []⟩], some 0, some 1⟩
        (str "  - Subtask: S [P3]  ") =
      { items := [⟨str "feature", str "F", none, 2, []⟩,
                  ⟨str "task", str "T", some (str "F"), 2, []⟩,
                  ⟨str "task", (parsePriority (pyStrip (str " S [P3]"))).1,
                   some (curTaskTitle ⟨[⟨str "feature", str "F", none, 2, []⟩,
                     ⟨str "task", str "T", some (str "F"), 2, []⟩], some 0, some 1⟩),
                   (parsePriority (pyStrip (str " S [P3]"))).2, []⟩],
        curFeature := some 0, curTask := some 1 } ∧
    curTaskTitle (runPlan [str "### Feature: F", str "- Task: T"])
      = (specMostRecentTaskTitle [str "### Feature: F", str "- Task: T"]).getD [] :=
  subtask_parent
    ⟨[⟨str "feature", str "F", none, 2, []⟩,
      ⟨str "task", str "T", some (str "F"), 2, []⟩], some 0, some 1⟩
    (str "  - Subtask: S [P3]  ") (str "  ") (str " S [P3]")
    [str "### Feature: F", str "- Task: T"]
    (by decide) (by decide)

theorem joinS_splitKE (s : Str) : joinS (splitKE s) = s := by
  induction s with
  | nil => rfl
  | cons c t ih =>
    by_cases hc : c = '\n'
    · subst hc; simp [splitKE, joinS] at ih ⊢; exact ih
    · simp only [splitKE, if_neg hc]
      cases hs : splitKE t with
      | nil =>
        have ht : t = [] := (splitKE_eq_nil_iff t).mp hs
        subst ht; simp [joinS]
      | cons l ls =>
        rw [hs] at ih
        simp only [joinS, List.foldr_cons] at ih ⊢
        rw [List.cons_append, ih]

/-! ## C10 — where the fresh section is inserted -/

/-- C10. First conjunct: when the version is not yet present and the
existing content's first line strips to `# Changelog`, the new placeholder
section is inserted immediately after that first line, before everything
else (the second equation identifies `content` with first line plus
remainder).  Second conjunct: when the version is absent and no first line
strips to `# Changelog` (including empty content), the heading line and a
blank line are prepended, then the section, then the original content — so
the result starts with `# Changelog`.  Third conjunct: when the file is
missing, the bootstrap content `# Changelog\n\n` is created and the result
is exactly the heading line, the section, and a blank line. -/
theorem ensure_insert_position :
    (∀ v d content l0 rest, hasHeading v content = false →
      splitKE content = l0 :: rest → pyStrip l0 = str "# Changelog" →
      ensureVersionSection v d content = l0 ++ (buildSection v d ++ joinS rest) ∧
      content = l0 ++ joinS rest) ∧
    (∀ v d content, hasHeading v content = false →
      (∀ l0 rest, splitKE content = l0 :: rest → pyStrip l0 ≠ str "# Changelog") →
      ensureVersionSection v d content
        = str "# Changelog\n" ++ (str "\n" ++ (buildSection v d ++ content))) ∧
    (∀ v d, ensureVersionSectionFile v d none
        = str "# Changelog\n" ++ (buildSection v d ++ str "\n")) := by
  refine ⟨?_, ?_, ?_⟩
  · intro v d content l0 rest hnh hsp hl0
    constructor
    · unfold ensureVersionSection
      rw [hnh]
      simp only [Bool.false_eq_true, if_false]
      rw [hsp]
      simp only []
      rw [if_pos hl0]
      rfl
    · have hj := joinS_splitKE content
      rw [hsp] at hj
      rw [← hj]
      rfl
  · intro v d content hnh hne
    unfold ensureVersionSection
    rw [hnh]
    simp only [Bool.false_eq_true, if_false]
    cases hsp : splitKE content with
    | nil =>
      have hc : content = [] := (splitKE_eq_nil_iff content).mp hsp
      subst hc
      rfl
    | cons l0 rest =>
      simp only []
      rw [if_neg (hne l0 rest hsp)]
      have hj := joinS_splitKE content
      rw [hsp] at hj
      show str "# Changelog\n" ++ (str "\n" ++ (buildSection v d ++ (l0 ++ joinS rest))) = _
      rw [show l0 ++ joinS rest = joinS (l0 :: rest) from rfl, hj]
  · intro v d
    rfl

theorem ensure_insert_position_witness :
    (ensureVersionSection (str "0.2.0") (str "2026-02-03") (str "# Changelog\nbody\n")
        = str "# Changelog\n" ++ (buildSection (str "0.2.0") (str "2026-02-03") ++
            joinS [str "body\n"]) ∧
      str "# Changelog\nbody\n" = str "# Changelog\n" ++ joinS [str "body\n"]) ∧
    ensureVersionSection (str "0.2.0") (str "2026-02-03") (str "old text\n")
      = str "# Changelog\n" ++ (str "\n" ++ (buildSection (str "0.2.0") (str "2026-02-03") ++
          str "old text\n")) ∧
    ensureVersionSectionFile (str "0.2.0") (str "2026-02-03") none
      = str "# Changelog\n" ++ (buildSection (str "0.2.0") (str "2026-02-03") ++ str "\n") :=
  ⟨ensure_insert_position.1 (str "0.2.0") (str "2026-02-03") (str "# Changelog\nbody\n")
      (str "# Changelog\n") [str "body\n"] (by decide) (by decide) (by decide),
   ensure_insert_position.2.1 (str "0.2.0") (str "2026-02-03") (str "old text\n")
      (by decide)
      (fun l0 rest h => by
        rw [show splitKE (str "old text\n") = [str "old text\n"] from by decide] at h
        have h1 := List.cons.injEq .. ▸ h
        injection h with h2 h3
        rw [← h2]
        decide),
   ensure_insert_position.2.2 (str "0.2.0") (str "2026-02-03")⟩

/-! ## C7 — version round-trip and bumping -/

theorem natDigitsAux_digits :
    ∀ fuel n, n < fuel → ∀ c ∈ natDigitsAux fuel n, isDigit c = true := by
  intro fuel
  induction fuel with
  | zero => intro n h; omega
  | succ k ih =>
    intro n _ c hc
    by_cases h10 : n < 10
    · simp only [natDigitsAux, if_pos h10, List.mem_singleton] at hc
      subst hc
      interval_cases n <;> decide
    · simp only [natDigitsAux, if_neg h10, List.mem_append, List.mem_singleton] at hc
      rcases hc with hc | hc
      · have hlt : n / 10 < k := by
          have := Nat.div_lt_self (by omega : 0 < n) (by omega : 1 < 10)
          omega
        exact ih (n / 10) hlt c hc
      · subst hc
        have : n % 10 < 10 := Nat.mod_lt _ (by omega)
        interval_cases h : n % 10 <;> decide

theorem natDigitsAux_ne_nil :
    ∀ fuel n, n < fuel → natDigitsAux fuel n ≠ [] := by
  intro fuel
  induction fuel with
  | zero => intro n h; omega
  | succ k _ =>
    intro n _
    by_cases h10 : n < 10 <;> simp [natDigitsAux, h10]

theorem charVal_ofNat (k : Nat) (h : k < 10) : charVal (Char.ofNat (48 + k)) = k := by
  interval_cases k <;> decide

theorem digitsToNat_append_one (l : Str) (c : Char) :
    digitsToNat (l ++ [c]) = digitsToNat l * 10 + charVal c := by
  simp [digitsToNat, List.foldl_append]

theorem digitsToNat_natDigitsAux :
    ∀ fuel n, n < fuel → digitsToNat (natDigitsAux fuel n) = n := by
  intro fuel
  induction fuel with
  | zero => intro n h; omega
  | succ k ih =>
    intro n hn
    by_cases h10 : n < 10
    · simp only [natDigitsAux, if_pos h10]
      have : digitsToNat [Char.ofNat (48 + n)] = charVal (Char.ofNat (48 + n)) := by
        simp [digitsToNat]
      rw [this, charVal_ofNat n h10]
    · simp only [natDigitsAux, if_neg h10]
      rw [digitsToNat_append_one]
      have hlt : n / 10 < k := by
        have := Nat.div_lt_self (by omega : 0 < n) (by omega : 1 < 10)
        omega
      rw [ih (n / 10) hlt, charVal_ofNat (n % 10) (Nat.mod_lt _ (by omega))]
      omega

theorem natDigits_digits (n : Nat) : ∀ c ∈ natDigits n, isDigit c = true :=
  natDigitsAux_digits (n + 1) n (by omega)

theorem natDigits_ne_nil (n : Nat) : natDigits n ≠ [] :=
  natDigitsAux_ne_nil (n + 1) n (by omega)

theorem digitsToNat_natDigits (n : Nat) : digitsToNat (natDigits n) = n :=
  digitsToNat_natDigitsAux (n + 1) n (by omega)

theorem isQuote_not_space (q : Char) (h : isQuote q = true) : isSpace q = false := by
  unfold isQuote at h
  rcases Bool.or_eq_true_iff.mp h with h | h
  · rw [show q = '"' from by simpa using h]; decide
  · rw [show q = '\'' from by simpa using h]; decide

theorem isQuote_not_digit (q : Char) (h : isQuote q = true) : isDigit q = false := by
  unfold isQuote at h
  rcases Bool.or_eq_true_iff.mp h with h | h
  · rw [show q = '"' from by simpa using h]; decide
  · rw [show q = '\'' from by simpa using h]; decide

theorem tryVerAt_none_of_miss (s : Str) (h : litV.isPrefixOf s = false) :
    tryVerAt s = none := by
  unfold tryVerAt
  rw [h]
  simp

theorem isPrefixOf_append_left_eq (p : Str) :
    ∀ (a b b' : Str), p.length ≤ a.length →
      p.isPrefixOf (a ++ b) = p.isPrefixOf (a ++ b') := by
  induction p with
  | nil => intro a b b' _; simp [List.isPrefixOf]
  | cons x ps ih =>
    intro a b b' hlen
    cases a with
    | nil => simp at hlen
    | cons y as =>
      show (x == y && ps.isPrefixOf (as ++ b)) = (x == y && ps.isPrefixOf (as ++ b'))
      rw [ih as b b' (by simpa using hlen)]

theorem tryVerAt_match (w1 w2 a b c : Str) (q q2 : Char) (post : Str)
    (hw1 : ∀ x ∈ w1, isSpace x = true) (hw2 : ∀ x ∈ w2, isSpace x = true)
    (hq : isQuote q = true) (hq2 : isQuote q2 = true)
    (haN : a ≠ []) (haD : ∀ x ∈ a, isDigit x = true)
    (hbN : b ≠ []) (hbD : ∀ x ∈ b, isDigit x = true)
    (hcN : c ≠ []) (hcD : ∀ x ∈ c, isDigit x = true) :
    tryVerAt (litV ++ (w1 ++ '=' :: (w2 ++ q :: (a ++ '.' :: (b ++ '.' :: (c ++ q2 :: post))))))
      = some (litV ++ w1 ++ '=' :: w2 ++ [q], a, b, c, q2, post) := by
  have hT1 : (w1 ++ '=' :: (w2 ++ q :: (a ++ '.' :: (b ++ '.' :: (c ++ q2 :: post))))).takeWhile isSpace = w1 :=
    takeWhile_append_stop _ _ _ _ hw1 (by decide)
  have hD1 : (w1 ++ '=' :: (w2 ++ q :: (a ++ '.' :: (b ++ '.' :: (c ++ q2 :: post))))).drop w1.length
      = '=' :: (w2 ++ q :: (a ++ '.' :: (b ++ '.' :: (c ++ q2 :: post)))) :=
    List.drop_left _ _
  have hT2 : (w2 ++ q :: (a ++ '.' :: (b ++ '.' :: (c ++ q2 :: post)))).takeWhile isSpace = w2 :=
    takeWhile_append_stop _ _ _ _ hw2 (isQuote_not_space q hq)
  have hD2 : (w2 ++ q :: (a ++ '.' :: (b ++ '.' :: (c ++ q2 :: post)))).drop w2.length
      = q :: (a ++ '.' :: (b ++ '.' :: (c ++ q2 :: post))) :=
    List.drop_left _ _
  have hTa : (a ++ '.' :: (b ++ '.' :: (c ++ q2 :: post))).takeWhile isDigit = a :=
    takeWhile_append_stop _ _ _ _ haD (by decide)
  have haE : a.isEmpty = false := by
    cases a with
    | nil => exact absurd rfl haN
    | cons _ _ => rfl
  have hDa : (a ++ '.' :: (b ++ '.' :: (c ++ q2 :: post))).drop a.length
      = '.' :: (b ++ '.' :: (c ++ q2 :: post)) := List.drop_left _ _
  have hTb : (b ++ '.' :: (c ++ q2 :: post)).takeWhile isDigit = b :=
    takeWhile_append_stop _ _ _ _ hbD (by decide)
  have hbE : b.isEmpty = false := by
    cases b with
    | nil => exact absurd rfl hbN
    | cons _ _ => rfl
  have hDb : (b ++ '.' :: (c ++ q2 :: post)).drop b.length = '.' :: (c ++ q2 :: post) :=
    List.drop_left _ _
  have hTc : (c ++ q2 :: post).takeWhile isDigit = c :=
    takeWhile_append_stop _ _ _ _ hcD (isQuote_not_digit q2 hq2)
  have hcE : c.isEmpty = false := by
    cases c with
    | nil => exact absurd rfl hcN
    | cons _ _ => rfl
  have hDc : (c ++ q2 :: post).drop c.length = q2 :: post := List.drop_left _ _
  have hdrop11 : (litV ++ (w1 ++ '=' :: (w2 ++ q :: (a ++ '.' :: (b ++ '.' :: (c ++ q2 :: post)))))).drop 11
      = w1 ++ '=' :: (w2 ++ q :: (a ++ '.' :: (b ++ '.' :: (c ++ q2 :: post)))) :=
    List.drop_left litV _
  unfold tryVerAt
  rw [if_pos (isPrefixOf_self_append litV _)]
  simp only [hdrop11, hT1, hD1, hT2, hD2, hTa, haE, hDa, hTb, hbE, hDb, hTc, hcE, hDc,
    hq, hq2, if_true, Bool.false_eq_true, if_false]

theorem writeSubAux_copy (v : Str) (s : Str)
    (h : ∀ i, tryVerAt (s.drop i) = none) :
    ∀ fuel, writeSubAux v fuel s = s := by
  induction s with
  | nil => intro fuel; cases fuel <;> rfl
  | cons c t ih =>
    intro fuel
    cases fuel with
    | zero => rfl
    | succ k =>
      simp only [writeSubAux]
      rw [show tryVerAt (c :: t) = none from by simpa using h 0]
      rw [ih (fun i => by simpa [List.drop_succ_cons] using h (i + 1)) k]

theorem writeSubAux_append (v : Str) (l₁ l₂ : Str)
    (h : ∀ i, i < l₁.length → tryVerAt ((l₁ ++ l₂).drop i) = none) :
    writeSubAux v (l₁ ++ l₂).length (l₁ ++ l₂) = l₁ ++ writeSubAux v l₂.length l₂ := by
  induction l₁ with
  | nil => simp
  | cons c t ih =>
    have h0 : tryVerAt (c :: (t ++ l₂)) = none := by
      have := h 0 (by simp)
      simpa using this
    show writeSubAux v ((t ++ l₂).length + 1) (c :: (t ++ l₂))
        = c :: (t ++ writeSubAux v l₂.length l₂)
    simp only [writeSubAux]
    rw [h0]
    exact congrArg (c :: ·) (ih (fun i hi => by
      have := h (i + 1) (by simp; omega)
      simpa [List.drop_succ_cons] using this))


/-- C7. First conjunct: for every well-formed version file — a single
`__version__` literal (no other position of the content lets the literal
match) of shape `__version__\s*=\s*<quote>d.d.d<quote>` — writing the tuple
`(M, m, p)` and reading the file back yields `(M, m, p)`.  Second and third
conjuncts: bumping `patch` from `(1,2,3)` yields `(1,2,4)`, and bumping
`major` from any `(M,m,p)` yields `(M+1,0,0)`. -/
theorem version_roundtrip_and_bump :
    (∀ (M m p : Nat) (pre w1 w2 : Str) (q q2 : Char) (a b c post : Str),
      (∀ i, i < pre.length → litV.isPrefixOf
          ((pre ++ (litV ++ (w1 ++ '=' :: (w2 ++ q :: (a ++ '.' :: (b ++ '.' :: (c ++ q2 :: post))))))).drop i)
        = false) →
      (∀ i, litV.isPrefixOf (post.drop i) = false) →
      (∀ x ∈ w1, isSpace x = true) → (∀ x ∈ w2, isSpace x = true) →
      isQuote q = true → isQuote q2 = true →
      a ≠ [] → (∀ x ∈ a, isDigit x = true) →
      b ≠ [] → (∀ x ∈ b, isDigit x = true) →
      c ≠ [] → (∀ x ∈ c, isDigit x = true) →
      readVersion (writeVersion (M, m, p)
          (pre ++ (litV ++ (w1 ++ '=' :: (w2 ++ q :: (a ++ '.' :: (b ++ '.' :: (c ++ q2 :: post))))))))
        = some (M, m, p)) ∧
    bumpVersion (1, 2, 3) (str "patch") = some (1, 2, 4) ∧
    (∀ M m p, bumpVersion (M, m, p) (str "major") = some (M + 1, 0, 0)) := by
  refine ⟨?_, by decide, fun M m p => by simp [bumpVersion]⟩
  intro M m p pre w1 w2 q q2 a b c post hpre hpost hw1 hw2 hq hq2 haN haD hbN hbD hcN hcD
  have hmatch := tryVerAt_match w1 w2 a b c q q2 post hw1 hw2 hq hq2 haN haD hbN hbD hcN hcD
  have hwrite : writeVersion (M, m, p)
      (pre ++ (litV ++ (w1 ++ '=' :: (w2 ++ q :: (a ++ '.' :: (b ++ '.' :: (c ++ q2 :: post)))))))
      = pre ++ ((litV ++ w1 ++ '=' :: w2 ++ [q]) ++ (versionStr (M, m, p) ++ q2 :: post)) := by
    unfold writeVersion writeSub
    rw [writeSubAux_append _ pre _ (fun i hi =>
      tryVerAt_none_of_miss _ (hpre i hi))]
    have hinner : writeSubAux (versionStr (M, m, p))
        (litV ++ (w1 ++ '=' :: (w2 ++ q :: (a ++ '.' :: (b ++ '.' :: (c ++ q2 :: post)))))).length
        (litV ++ (w1 ++ '=' :: (w2 ++ q :: (a ++ '.' :: (b ++ '.' :: (c ++ q2 :: post))))))
        = (litV ++ w1 ++ '=' :: w2 ++ [q]) ++ (versionStr (M, m, p) ++ q2 :: post) := by
      show writeSubAux (versionStr (M, m, p))
          ((str "_version__" ++ (w1 ++ '=' :: (w2 ++ q :: (a ++ '.' :: (b ++ '.' :: (c ++ q2 :: post)))))).length + 1)
          ('_' :: (str "_version__" ++ (w1 ++ '=' :: (w2 ++ q :: (a ++ '.' :: (b ++ '.' :: (c ++ q2 :: post)))))))
          = _
      simp only [writeSubAux]
      rw [show tryVerAt ('_' :: (str "_version__" ++ (w1 ++ '=' :: (w2 ++ q :: (a ++ '.' :: (b ++ '.' :: (c ++ q2 :: post)))))))
          = some (litV ++ w1 ++ '=' :: w2 ++ [q], a, b, c, q2, post) from hmatch]
      simp only []
      rw [writeSubAux_copy _ post (fun i => tryVerAt_none_of_miss _ (hpost i)) _]
      simp [List.append_assoc]
    rw [hinner]
  rw [hwrite]
  have hshape : (litV ++ w1 ++ '=' :: w2 ++ [q]) ++ (versionStr (M, m, p) ++ q2 :: post)
      = litV ++ (w1 ++ '=' :: (w2 ++ q :: (natDigits M ++ '.' :: (natDigits m ++ '.' :: (natDigits p ++ q2 :: post))))) := by
    simp [versionStr, List.append_assoc]
  rw [hshape]
  have hmatch2 := tryVerAt_match w1 w2 (natDigits M) (natDigits m) (natDigits p) q q2 post
    hw1 hw2 hq hq2 (natDigits_ne_nil M) (natDigits_digits M)
    (natDigits_ne_nil m) (natDigits_digits m) (natDigits_ne_nil p) (natDigits_digits p)
  unfold readVersion
  rw [scanFor_append_none _ pre _ (fun i hi => by
    have hdropN : (pre ++ (litV ++ (w1 ++ '=' :: (w2 ++ q :: (natDigits M ++ '.' :: (natDigits m ++ '.' :: (natDigits p ++ q2 :: post))))))).drop i
        = pre.drop i ++ (litV ++ (w1 ++ '=' :: (w2 ++ q :: (natDigits M ++ '.' :: (natDigits m ++ '.' :: (natDigits p ++ q2 :: post)))))) :=
      List.drop_append_of_le_length (le_of_lt hi)
    have hdropO : (pre ++ (litV ++ (w1 ++ '=' :: (w2 ++ q :: (a ++ '.' :: (b ++ '.' :: (c ++ q2 :: post))))))).drop i
        = pre.drop i ++ (litV ++ (w1 ++ '=' :: (w2 ++ q :: (a ++ '.' :: (b ++ '.' :: (c ++ q2 :: post)))))) :=
      List.drop_append_of_le_length (le_of_lt hi)
    have hlen : litV.length ≤ (pre.drop i ++ litV).length := by simp
    have hfalse : litV.isPrefixOf (pre.drop i ++ (litV ++ (w1 ++ '=' :: (w2 ++ q :: (natDigits M ++ '.' :: (natDigits m ++ '.' :: (natDigits p ++ q2 :: post))))))) = false := by
      calc litV.isPrefixOf (pre.drop i ++ (litV ++ (w1 ++ '=' :: (w2 ++ q :: (natDigits M ++ '.' :: (natDigits m ++ '.' :: (natDigits p ++ q2 :: post)))))))
          = litV.isPrefixOf ((pre.drop i ++ litV) ++ (w1 ++ '=' :: (w2 ++ q :: (natDigits M ++ '.' :: (natDigits m ++ '.' :: (natDigits p ++ q2 :: post)))))) := by
            rw [List.append_assoc]
        _ = litV.isPrefixOf ((pre.drop i ++ litV) ++ (w1 ++ '=' :: (w2 ++ q :: (a ++ '.' :: (b ++ '.' :: (c ++ q2 :: post)))))) :=
            isPrefixOf_append_left_eq litV _ _ _ hlen
        _ = litV.isPrefixOf (pre.drop i ++ (litV ++ (w1 ++ '=' :: (w2 ++ q :: (a ++ '.' :: (b ++ '.' :: (c ++ q2 :: post))))))) := by
            rw [List.append_assoc]
        _ = false := by rw [← hdropO]; exact hpre i hi
    rw [hdropN, tryVerAt_none_of_miss _ hfalse]
    rfl)]
  show scanFor _ ('_' :: (str "_version__" ++ (w1 ++ '=' :: (w2 ++ q :: (natDigits M ++ '.' :: (natDigits m ++ '.' :: (natDigits p ++ q2 :: post))))))) = _
  simp only [scanFor]
  rw [show tryVerAt ('_' :: (str "_version__" ++ (w1 ++ '=' :: (w2 ++ q :: (natDigits M ++ '.' :: (natDigits m ++ '.' :: (natDigits p ++ q2 :: post)))))))
      = some (litV ++ w1 ++ '=' :: w2 ++ [q], natDigits M, natDigits m, natDigits p, q2, post) from hmatch2]
  simp [digitsToNat_natDigits]

theorem version_roundtrip_witness :
    readVersion (writeVersion (9, 0, 4)
        (str "x = 1\n" ++ (litV ++ ([' '] ++ '=' :: ([' '] ++ '"' :: (['1'] ++ '.' :: (['2'] ++ '.' :: (['3'] ++ '"' :: []))))))))
      = some (9, 0, 4) ∧
    str "x = 1\n" ++ (litV ++ ([' '] ++ '=' :: ([' '] ++ '"' :: (['1'] ++ '.' :: (['2'] ++ '.' :: (['3'] ++ '"' :: []))))))
      = str "x = 1\n__version__ = \"1.2.3\"" ∧
    bumpVersion (1, 2, 3) (str "patch") = some (1, 2, 4) ∧
    bumpVersion (7, 5, 9) (str "major") = some (8, 0, 0) :=
  ⟨version_roundtrip_and_bump.1 9 0 4 (str "x = 1\n") [' '] [' '] '"' '"' ['1'] ['2'] ['3'] []
      (by decide) (fun i => by rw [List.drop_nil]; decide)
      (by decide) (by decide) (by decide) (by decide) (by decide) (by decide)
      (by decide) (by decide) (by decide) (by decide),
   by decide,
   version_roundtrip_and_bump.2.1,
   version_roundtrip_and_bump.2.2 7 5 9⟩

end Beads
